import Mathlib

/-!
Shallow embedding of the EVM fuzz-input core (`src/evm/input.rs`) and of the
decompiler driver / target validator of the bundled heimdall fork
(`externals/heimdall-rs`).  Machine integers (`U256`, `u8`, `u64`) are
modelled as `Nat`; byte vectors as `List Nat` whose entries are below 256
where that matters; 20-byte addresses (`H160`) as their byte list.
External collaborators (the libafl mutation engine, the `revm` environment,
the ABI payload) are modelled as abstract operation records that the
mutators are parameterised over.
-/

/-- 32-byte big-endian serialization of a `U256` value
(`U256::to_be_bytes` from the `ruint` crate): byte `i` holds
`n / 256 ^ (31 - i) % 256`.  Generalised over the width `w`. -/
def toBytesBE (w : Nat) (n : Nat) : List Nat :=
  (List.range w).map (fun i => n / 256 ^ (w - 1 - i) % 256)

/-- 32-byte little-endian serialization of a `U256` value
(`U256::to_le_bytes`): byte `i` holds `n / 256 ^ i % 256`. -/
def toBytesLE (w : Nat) (n : Nat) : List Nat :=
  (List.range w).map (fun i => n / 256 ^ i % 256)

/-- Big-endian interpretation of a byte list (most significant byte first). -/
def fromBytesBE (bs : List Nat) : Nat :=
  bs.foldl (fun acc b => acc * 256 + b) 0

/-- `U256::try_from_be_slice`: reads a big-endian slice, `none` when the
value does not fit in 256 bits (for slices of at most 32 genuine bytes it
always succeeds). -/
def try_from_be_slice (bs : List Nat) : Option Nat :=
  if fromBytesBE bs < 2 ^ 256 then some (fromBytesBE bs) else none

/-- The `for i in 0..16 { input_vec[i] = 0 }` loop of `call_value`:
zero the first 16 entries of a byte vector (the source indexes the
vector directly, so it expects length at least 16). -/
def zeroFirst16 (v : List Nat) : List Nat :=
  List.replicate (min 16 v.length) 0 ++ v.drop 16

/-- `libafl::mutators::MutationResult`. -/
inductive MutationResult
  | Mutated
  | Skipped
deriving DecidableEq, Repr

/-- `EVMAddress` (`primitive_types::H160`): 20 bytes.  `to_fixed_bytes`
is the identity on this representation. -/
abbrev EVMAddress : Type := List Nat

/-- One contract's storage, the map `U256 -> U256` held per address in
`EVMState`.  Modelled from the spec: `vm.rs` is not under `src/`; the
mutators only clone it and `cu_load_storage` iterates its entries, so an
association list suffices. -/
abbrev Storage : Type := List (Nat × Nat)

/-- `EVMState` (`crate::evm::vm::EVMState`).  Modelled from the spec:
`vm.rs` is not under `src/`; the input code only uses
`get_state().get(&contract)`, a per-address lookup of the storage map. -/
structure EVMState where
  state : List (EVMAddress × Storage)
deriving DecidableEq

/-- `EVMState::get(&addr)`: look up one contract's storage map. -/
def EVMState.get (st : EVMState) (addr : EVMAddress) : Option Storage :=
  (st.state.find? (fun p => p.1 = addr)).map (fun p => p.2)

/-- `StagedVMState` (`crate::state_input`).  Modelled from the spec:
`state_input.rs` is not under `src/`; the input code reaches only its
`state` field (the staged VM state snapshot). -/
structure StagedVMState where
  state : EVMState
deriving DecidableEq

/-- `revm_primitives::BlockEnv` (external crate): the block fields the
mutators and the marshaling code touch. -/
structure BlockEnv where
  timestamp : Nat
  number : Nat
  basefee : Nat
  gas_limit : Nat
  coinbase : EVMAddress
deriving DecidableEq

/-- `revm_primitives::CfgEnv` (external crate): only `chain_id` is used. -/
structure CfgEnv where
  chain_id : Nat
deriving DecidableEq

/-- `revm_primitives::Env` (external crate). -/
structure Env where
  block : BlockEnv
  cfg : CfgEnv
deriving DecidableEq

/-- `AccessPattern` (`crate::evm::mutator`).  Modelled from the spec:
`mutator.rs` is not under `src/`; the spec's §3 "Access pattern" and the
field reads in `mutate_env_with_access_pattern` fix its shape: one flag
per environment component, with `balance` a list of addresses. -/
structure AccessPattern where
  caller : Bool
  balance : List EVMAddress
  call_value : Bool
  gas_price : Bool
  basefee : Bool
  timestamp : Bool
  coinbase : Bool
  gas_limit : Bool
  number : Bool
  chain_id : Bool
  prevrandao : Bool
deriving DecidableEq

/-- `BoxedABI` (`crate::evm::abi`).  Modelled from the spec: `abi.rs` is
not under `src/`; the input code uses `get_bytes` (the ABI-encoded call
data) and `get_basic_types` (one tag per argument, cast to `u8`); its
type-directed mutator is an abstract operation of `FuzzerOps`. -/
structure BoxedABI where
  bytes : List Nat
  basic_types : List Nat
deriving DecidableEq

/-- `BoxedABI::get_bytes`. -/
def BoxedABI.get_bytes (a : BoxedABI) : List Nat := a.bytes

/-- `EVMInput` (`src/evm/input.rs`).  The `flashloan_v2`-gated fields
(`input_type`, `liquidation_percent`) are compiled out here, as in the
default configuration. -/
structure EVMInput where
  caller : EVMAddress
  contract : EVMAddress
  data : Option BoxedABI
  sstate : StagedVMState
  sstate_idx : Nat
  txn_value : Option Nat
  step : Bool
  env : Env
  access_pattern : AccessPattern
  direct_data : List Nat
  randomness : List Nat
  /-- the source's `repeat` field (a Lean keyword) -/
  repeat_cnt : Nat
  cu_data : List Nat
  is_cuda : Bool
  branch_distance : Nat
deriving DecidableEq

/-- `VMInputT::get_caller`. -/
def EVMInput.get_caller (input : EVMInput) : EVMAddress := input.caller

/-- `VMInputT::get_contract`. -/
def EVMInput.get_contract (input : EVMInput) : EVMAddress := input.contract

/-- `VMInputT::get_state`: the staged VM state snapshot. -/
def EVMInput.get_state (input : EVMInput) : EVMState := input.sstate.state

/-- `EVMInputT::get_txn_value`. -/
def EVMInput.get_txn_value (input : EVMInput) : Option Nat := input.txn_value

/-- The `vm_slots` computation shared by the u256 env mutators,
`call_value` and `mutate`: the current contract's storage, if any. -/
def EVMInput.vm_slots (input : EVMInput) : Option Storage :=
  input.get_state.get input.get_contract

/-- `HasLen::len` for `EVMInput`: length of the ABI-encoded payload,
0 when `data` is `None`. -/
def EVMInput.len (input : EVMInput) : Nat :=
  match input.data with
  | some d => d.get_bytes.length
  | none => 0

/-- `EVMInputT::to_bytes`: the ABI-encoded payload, empty when `data` is
`None`. -/
def EVMInput.to_bytes (input : EVMInput) : List Nat :=
  match input.data with
  | some d => d.get_bytes
  | none => []

/-- `EVMInputT::get_types_vec`: the payload's basic-type tags, each cast
`as u8`; empty when `data` is `None`. -/
def EVMInput.get_types_vec (input : EVMInput) : List Nat :=
  match input.data with
  | some d => d.basic_types.map (fun t => t % 256)
  | none => []

/-- `EVMInputT::get_calldata`: the raw `direct_data` when `data` is
`None`, otherwise the ABI-encoded payload. -/
def EVMInput.get_calldata (input : EVMInput) : List Nat :=
  match input.data with
  | none => input.direct_data
  | some abi => abi.get_bytes

/-- The external mutation-engine and corpus operations the mutators
consume (spec §1: byte mutator, random-number source, corpus state are
external collaborators reached via named operations).  `S` is the fuzzer
state threaded through every call.
* `byte_mutator` — `crate::evm::mutation_utils::byte_mutator`, acting on
  a byte vector with the current storage slots available;
* `get_rand_caller` — `HasCaller::get_rand_caller`, a random corpus
  caller address;
* `rand_next` — `state.rand_mut().next()`;
* `rand_below` — `state.rand_mut().below(n)` (result below `n`; the
  model reduces it `% n` at use sites);
* `abi_mutate` — `BoxedABI::mutate_with_vm_slots`, the type-directed
  payload mutator. -/
structure FuzzerOps (S : Type) where
  byte_mutator : S → List Nat → Option Storage → MutationResult × List Nat × S
  get_rand_caller : S → EVMAddress × S
  rand_next : S → Nat × S
  rand_below : S → Nat → Nat × S
  abi_mutate : S → BoxedABI → Option Storage → MutationResult × BoxedABI × S

namespace EnvMutator

variable {S : Type}

/-- Body of the `impl_env_mutator_u256!` macro: serialize the field
big-endian, run the shared byte mutator over the 32 bytes, and on
`Mutated` write back `U256::try_from_be_slice(..).unwrap()`. -/
def mutateU256Field (get : EVMInput → Nat) (set : EVMInput → Nat → EVMInput)
    (ops : FuzzerOps S) (input : EVMInput) (s : S) :
    MutationResult × EVMInput × S :=
  let vm_slots := input.vm_slots
  let input_vec := toBytesBE 32 (get input)
  match ops.byte_mutator s input_vec vm_slots with
  | (res, vec, s') =>
    match res with
    | .Skipped => (.Skipped, input, s')
    | .Mutated => (.Mutated, set input ((try_from_be_slice vec).getD 0), s')

/-- `impl_env_mutator_u256!(basefee, block)`. -/
def basefee (ops : FuzzerOps S) (input : EVMInput) (s : S) :
    MutationResult × EVMInput × S :=
  mutateU256Field (fun i => i.env.block.basefee)
    (fun i v => { i with env.block.basefee := v }) ops input s

/-- `impl_env_mutator_u256!(timestamp, block)`. -/
def timestamp (ops : FuzzerOps S) (input : EVMInput) (s : S) :
    MutationResult × EVMInput × S :=
  mutateU256Field (fun i => i.env.block.timestamp)
    (fun i v => { i with env.block.timestamp := v }) ops input s

/-- `impl_env_mutator_u256!(gas_limit, block)`. -/
def gas_limit (ops : FuzzerOps S) (input : EVMInput) (s : S) :
    MutationResult × EVMInput × S :=
  mutateU256Field (fun i => i.env.block.gas_limit)
    (fun i v => { i with env.block.gas_limit := v }) ops input s

/-- `impl_env_mutator_u256!(number, block)`. -/
def number (ops : FuzzerOps S) (input : EVMInput) (s : S) :
    MutationResult × EVMInput × S :=
  mutateU256Field (fun i => i.env.block.number)
    (fun i v => { i with env.block.number := v }) ops input s

/-- `impl_env_mutator_u256!(chain_id, cfg)`. -/
def chain_id (ops : FuzzerOps S) (input : EVMInput) (s : S) :
    MutationResult × EVMInput × S :=
  mutateU256Field (fun i => i.env.cfg.chain_id)
    (fun i v => { i with env.cfg.chain_id := v }) ops input s

/-- `impl_env_mutator_h160!(coinbase, block)`: draw a random corpus
caller; `Skipped` when it equals the input's *caller* (the macro compares
against `input.get_caller()`, whatever field it mutates), otherwise
write it into `env.block.coinbase`. -/
def coinbase (ops : FuzzerOps S) (input : EVMInput) (s : S) :
    MutationResult × EVMInput × S :=
  match ops.get_rand_caller s with
  | (addr, s') =>
    if addr = input.get_caller then (.Skipped, input, s')
    else (.Mutated, { input with env.block.coinbase := addr }, s')

/-- `EVMInput::prevrandao`: not supported yet, always `Skipped`. -/
def prevrandao (_ops : FuzzerOps S) (input : EVMInput) (s : S) :
    MutationResult × EVMInput × S :=
  (.Skipped, input, s)

/-- `EVMInput::gas_price`: not supported yet, always `Skipped`. -/
def gas_price (_ops : FuzzerOps S) (input : EVMInput) (s : S) :
    MutationResult × EVMInput × S :=
  (.Skipped, input, s)

/-- `EVMInput::balance`: not supported yet, always `Skipped`. -/
def balance (_ops : FuzzerOps S) (input : EVMInput) (s : S) :
    MutationResult × EVMInput × S :=
  (.Skipped, input, s)

/-- `EVMInput::caller`: draw a random corpus caller; `Skipped` when it
equals the current caller, otherwise `set_caller` and `Mutated`. -/
def caller (ops : FuzzerOps S) (input : EVMInput) (s : S) :
    MutationResult × EVMInput × S :=
  match ops.get_rand_caller s with
  | (c, s') =>
    if c = input.get_caller then (.Skipped, input, s')
    else (.Mutated, { input with caller := c }, s')

/-- `EVMInput::call_value`: serialize `txn_value` (default 0)
big-endian, run the shared byte mutator, and on `Mutated` zero the first
16 bytes before writing the value back. -/
def call_value (ops : FuzzerOps S) (input : EVMInput) (s : S) :
    MutationResult × EVMInput × S :=
  let vm_slots := input.vm_slots
  let input_vec := toBytesBE 32 (input.get_txn_value.getD 0)
  match ops.byte_mutator s input_vec vm_slots with
  | (res, vec, s') =>
    match res with
    | .Skipped => (.Skipped, input, s')
    | .Mutated =>
      let vec2 := zeroFirst16 vec
      (.Mutated,
       { input with txn_value := some ((try_from_be_slice vec2).getD 0) }, s')

end EnvMutator

/-- Names for the environment mutators that
`mutate_env_with_access_pattern` can put into its dispatch vector, in the
order the source pushes them. -/
inductive EnvMutatorKind
  | caller
  | balance
  | call_value
  | gas_price
  | basefee
  | timestamp
  | coinbase
  | gas_limit
  | number
  | chain_id
  | prevrandao
deriving DecidableEq, Repr

/-- One `add_mutator!` step: the singleton list when the guard holds. -/
def optMutator (b : Bool) (k : EnvMutatorKind) : List EnvMutatorKind :=
  if b then [k] else []

/-- The `mutators` vector built by `mutate_env_with_access_pattern`:
each environment mutator guarded by its access-pattern flag, except that
`balance` is guarded by `ap.balance` being non-empty and `call_value` by
`ap.call_value || txn_value.is_some()`. -/
def EVMInput.enabled_env_mutators (input : EVMInput) : List EnvMutatorKind :=
  let ap := input.access_pattern
  optMutator ap.caller .caller ++
  optMutator (decide (ap.balance.length > 0)) .balance ++
  optMutator (ap.call_value || input.get_txn_value.isSome) .call_value ++
  optMutator ap.gas_price .gas_price ++
  optMutator ap.basefee .basefee ++
  optMutator ap.timestamp .timestamp ++
  optMutator ap.coinbase .coinbase ++
  optMutator ap.gas_limit .gas_limit ++
  optMutator ap.number .number ++
  optMutator ap.chain_id .chain_id ++
  optMutator ap.prevrandao .prevrandao

/-- Dispatch to the named environment mutator. -/
def runEnvMutator {S : Type} (k : EnvMutatorKind) (ops : FuzzerOps S)
    (input : EVMInput) (s : S) : MutationResult × EVMInput × S :=
  match k with
  | .caller => EnvMutator.caller ops input s
  | .balance => EnvMutator.balance ops input s
  | .call_value => EnvMutator.call_value ops input s
  | .gas_price => EnvMutator.gas_price ops input s
  | .basefee => EnvMutator.basefee ops input s
  | .timestamp => EnvMutator.timestamp ops input s
  | .coinbase => EnvMutator.coinbase ops input s
  | .gas_limit => EnvMutator.gas_limit ops input s
  | .number => EnvMutator.number ops input s
  | .chain_id => EnvMutator.chain_id ops input s
  | .prevrandao => EnvMutator.prevrandao ops input s

/-- `EVMInput::mutate_env_with_access_pattern`: build the vector of
enabled environment mutators; `Skipped` when it is empty, otherwise run
the one at `rand.below(len)` (`below` returns a value under `len`, which
the model enforces by reducing modulo the length). -/
def mutate_env_with_access_pattern {S : Type} (ops : FuzzerOps S)
    (input : EVMInput) (s : S) : MutationResult × EVMInput × S :=
  let mutators := input.enabled_env_mutators
  if mutators.length = 0 then (.Skipped, input, s)
  else
    match ops.rand_below s mutators.length with
    | (r, s') =>
      runEnvMutator (mutators.getD (r % mutators.length) .prevrandao) ops input s'

/-- `VMInputT::mutate` for `EVMInput`: for non-CUDA inputs draw one
random number and go to the environment mutator when `rand % 100 > 87`
or the payload is absent; otherwise (and always for CUDA inputs)
dispatch into the payload's type-directed mutator, `Skipped` when there
is no payload. -/
def mutate {S : Type} (ops : FuzzerOps S) (input : EVMInput) (s : S) :
    MutationResult × EVMInput × S :=
  if !input.is_cuda then
    match ops.rand_next s with
    | (r, s1) =>
      if r % 100 > 87 || input.data.isNone then
        mutate_env_with_access_pattern ops input s1
      else
        mutatePayload ops input s1
  else
    mutatePayload ops input s
where
  /-- The payload half of `mutate`: clone the current storage slots and
  run `data.mutate_with_vm_slots`; `Skipped` when `data` is `None`. -/
  mutatePayload (ops : FuzzerOps S) (input : EVMInput) (s : S) :
      MutationResult × EVMInput × S :=
    let vm_slots := input.vm_slots
    match input.data with
    | some d =>
      match ops.abi_mutate s d vm_slots with
      | (a, d', s') => (a, { input with data := some d' }, s')
    | none => (.Skipped, input, s)

/-- The argument triple handed to the foreign `setEVMEnv` symbol by
`cu_load_evm_env`. -/
structure SetEVMEnvArgs3 where
  To : List Nat
  Timestamp : List Nat
  Blocknum : List Nat
deriving DecidableEq

/-- `EVMInputT::cu_load_evm_env`: marshals the contract address
byte-reversed and block timestamp / number as 32 little-endian bytes for
the foreign `setEVMEnv(To, Timestamp, Blocknum)` call. -/
def cu_load_evm_env (input : EVMInput) : SetEVMEnvArgs3 :=
  { To := input.get_contract.reverse
  , Timestamp := toBytesLE 32 input.env.block.timestamp
  , Blocknum := toBytesLE 32 input.env.block.number }

/-- The argument tuple handed to the foreign `cuLoadSeed` symbol. -/
structure CuLoadSeedArgs where
  caller : List Nat
  value : List Nat
  data : List Nat
  data_size : Nat
  state_idx : Nat
  thread : Nat
deriving DecidableEq

/-- What `cu_load_input` does observably: whether the `SEED_SIZE`
configuration error was printed, and the `cuLoadSeed` arguments (the
call is made unconditionally). -/
structure CuLoadInputResult where
  logged_seed_size_error : Bool
  call : CuLoadSeedArgs
deriving DecidableEq

/-- `EVMInputT::cu_load_input`: caller byte-reversed, call value as 32
little-endian bytes, full calldata with its length, `state_idx = 0`,
the given thread id; a configuration error is printed (but nothing else
happens) when `68 + calldatasize > SEED_SIZE`.  `SEED_SIZE` is modelled
from the spec: `config.rs` is not under `src/`; the spec calls it a
compile-time constant, so it is a parameter here. -/
def cu_load_input (SEED_SIZE : Nat) (input : EVMInput) (tid : Nat) :
    CuLoadInputResult :=
  let caller := input.get_caller.reverse
  let callvalue := toBytesLE 32 (input.get_txn_value.getD 0)
  let calldata := input.get_calldata
  let calldatasize := calldata.length
  { logged_seed_size_error := decide (68 + calldatasize > SEED_SIZE)
  , call :=
    { caller := caller
    , value := callvalue
    , data := calldata
    , data_size := calldatasize
    , state_idx := 0
    , thread := tid } }

/-- The argument tuple handed to the foreign `cuLoadStorage` symbol
(`src = []` models the null pointer of the storage-less branch). -/
structure CuLoadStorageArgs where
  src : List Nat
  slotCnt : Nat
  state_id : Nat
deriving DecidableEq

/-- `EVMInputT::cu_load_storage`: when the contract has storage,
concatenate `key.as_le_bytes() ++ value.as_le_bytes()` per slot and pass
the slot count; otherwise a null pointer and count 0. -/
def cu_load_storage (input : EVMInput) (state_id : Nat) : CuLoadStorageArgs :=
  match input.get_state.get input.get_contract with
  | some storage =>
    { src := storage.foldl
        (fun acc kv => acc ++ (toBytesLE 32 kv.1 ++ toBytesLE 32 kv.2)) []
    , slotCnt := storage.length
    , state_id := state_id }
  | none => { src := [], slotCnt := 0, state_id := state_id }

/-- The argument tuple handed to the four-argument `setEVMEnv` symbol by
`set_evm_env`. -/
structure SetEVMEnvArgs4 where
  From : List Nat
  To : List Nat
  Timestamp : List Nat
  Blocknum : List Nat
deriving DecidableEq

/-- `VMInputT::set_evm_env`: timestamp and block number as 32
little-endian bytes, but the caller and contract addresses are passed in
their natural byte order — unlike `cu_load_evm_env`/`cu_load_input`,
this path does not reverse them.  (The call value is also serialized
little-endian there but never passed to the foreign symbol.) -/
def set_evm_env (input : EVMInput) : SetEVMEnvArgs4 :=
  { From := input.get_caller
  , To := input.get_contract
  , Timestamp := toBytesLE 32 input.env.block.timestamp
  , Blocknum := toBytesLE 32 input.env.block.number }

/-- The subset of heimdall's `Function` record that
`decompile_with_bytecode` itself constructs before handing it to the
analyzer.  Modelled from the spec: `util.rs` is not under `src/`; the
spec's §3 "Function entry" lists the fields, of which the driver loop
initialises `selector`, `entry_point` and the mutability flags (the
collection-valued fields start empty and are abstracted away with the
analyzer). -/
structure DFunction where
  selector : String
  entry_point : Nat
  pure : Bool
  view : Bool
  payable : Bool
deriving DecidableEq, Repr

/-- The fresh `Function` literal built in `decompile_with_bytecode` for
one selector: `pure = view = true`, `payable = false`. -/
def initFunction (sel : String) (ep : Nat) : DFunction :=
  { selector := sel
  , entry_point := ep
  , pure := true
  , view := true
  , payable := false }

/-- The trace records the per-selector loop can emit that matter to the
error-handling contract: the "selector flagged as false-positive."
error. -/
inductive TraceEvent
  | falsePositive (selector : String)
deriving DecidableEq, Repr

/-- The external per-selector analyses `decompile_with_bytecode` calls
into.  Modelled from the spec: `util.rs`/`analyze.rs` are not under
`src/`; `M` is the branch-map type produced by the symbolic executor.
* `resolve_entry_point` — entry PC for a selector, 0 for a false positive;
* `map_selector` — symbolic execution, yielding `(branch map, jumpdests)`;
* `analyze` — collapse the branch map into the function record. -/
structure DecompilerOps (M : Type) where
  resolve_entry_point : String → Nat
  map_selector : String → Nat → M × List Nat
  analyze : M → DFunction → DFunction

/-- The per-selector loop of `decompile_with_bytecode` (with
`skip_resolving = true` as hard-coded there): for each selector resolve
its entry point; on 0 record the false-positive error and `continue`,
otherwise run the symbolic executor and analyzer and push the function
record. -/
def decompile_selectors {M : Type} (ops : DecompilerOps M) :
    List String → List DFunction × List TraceEvent
  | [] => ([], [])
  | sel :: rest =>
    let function_entry_point := ops.resolve_entry_point sel
    if function_entry_point = 0 then
      match decompile_selectors ops rest with
      | (fs, es) => (fs, .falsePositive sel :: es)
    else
      match ops.map_selector sel function_entry_point with
      | (map, _jumpdests) =>
        let analyzed_function := ops.analyze map (initFunction sel function_entry_point)
        match decompile_selectors ops rest with
        | (fs, es) => (analyzed_function :: fs, es)

/-- A regular expression over characters, large enough for the three
anchored target-validation patterns of `consts.rs`: character classes,
concatenation, an optional group, and counted repetition `{lo,hi}`. -/
inductive Regex
  | char (p : Char → Bool)
  | seq (r1 r2 : Regex)
  | opt (r : Regex)
  | rep (r : Regex) (lo hi : Nat)

mutual

/-- `s` is a concatenation of exactly `n` matches of `r`. -/
inductive RMatchN : Regex → Nat → List Char → Prop
  | nil (r : Regex) : RMatchN r 0 []
  | cons {r : Regex} {n : Nat} {s1 s2 : List Char} :
      RMatch r s1 → RMatchN r n s2 → RMatchN r (n + 1) (s1 ++ s2)

/-- Anchored match semantics (`^pattern$`: the whole string matches). -/
inductive RMatch : Regex → List Char → Prop
  | char {p : Char → Bool} {c : Char} : p c = true → RMatch (.char p) [c]
  | seqm {r1 r2 : Regex} {s1 s2 : List Char} :
      RMatch r1 s1 → RMatch r2 s2 → RMatch (.seq r1 r2) (s1 ++ s2)
  | optNone {r : Regex} : RMatch (.opt r) []
  | optSome {r : Regex} {s : List Char} : RMatch r s → RMatch (.opt r) s
  | repm {r : Regex} {lo hi n : Nat} {s : List Char} :
      lo ≤ n → n ≤ hi → RMatchN r n s → RMatch (.rep r lo hi) s

end

/-- `[0-9a-fA-F]`. -/
def isHexDigit (c : Char) : Bool :=
  (decide ('0' ≤ c) && decide (c ≤ '9')) ||
  (decide ('a' ≤ c) && decide (c ≤ 'f')) ||
  (decide ('A' ≤ c) && decide (c ≤ 'F'))

/-- The optional `(0x)?` prefix group. -/
def optHexPrefix : Regex :=
  .opt (.seq (.char (fun c => c = '0')) (.char (fun c => c = 'x')))

/-- `ADDRESS_REGEX`: `^(0x)?[0-9a-fA-F]{40}$`. -/
def ADDRESS_REGEX : Regex :=
  .seq optHexPrefix (.rep (.char isHexDigit) 40 40)

/-- `TRANSACTION_HASH_REGEX`: `^(0x)?[0-9a-fA-F]{64}$`. -/
def TRANSACTION_HASH_REGEX : Regex :=
  .seq optHexPrefix (.rep (.char isHexDigit) 64 64)

/-- `BYTECODE_REGEX`: `^(0x)?[0-9a-fA-F]{0,50000}$`. -/
def BYTECODE_REGEX : Regex :=
  .seq optHexPrefix (.rep (.char isHexDigit) 0 50000)

/-- The claim's reading of "optional 0x prefix followed by between `lo`
and `hi` hexadecimal characters": either the whole string is such a
digit run, or it is `'0' :: 'x' ::` such a run. -/
def matchesHexTarget (lo hi : Nat) (s : List Char) : Prop :=
  (s.all isHexDigit = true ∧ lo ≤ s.length ∧ s.length ≤ hi) ∨
  (∃ t, s = '0' :: 'x' :: t ∧ t.all isHexDigit = true ∧ lo ≤ t.length ∧ t.length ≤ hi)

theorem fromBytesBE_foldl_lt (bs : List Nat) (acc : Nat)
    (hb : ∀ b ∈ bs, b < 256) :
    bs.foldl (fun a b => a * 256 + b) acc < (acc + 1) * 256 ^ bs.length := by
  induction bs generalizing acc with
  | nil => simp
  | cons b bs ih =>
    have hb' : ∀ x ∈ bs, x < 256 := fun x hx => hb x (List.mem_cons_of_mem _ hx)
    have h1 := ih (acc * 256 + b) hb'
    have h2 : (acc * 256 + b + 1) * 256 ^ bs.length ≤
        ((acc + 1) * 256) * 256 ^ bs.length := by
      have hble : b < 256 := hb b (List.mem_cons_self b bs)
      exact Nat.mul_le_mul_right _ (by omega)
    calc (b :: bs).foldl (fun a b => a * 256 + b) acc
        = bs.foldl (fun a b => a * 256 + b) (acc * 256 + b) := by
          simp [List.foldl_cons]
      _ < (acc * 256 + b + 1) * 256 ^ bs.length := h1
      _ ≤ ((acc + 1) * 256) * 256 ^ bs.length := h2
      _ = (acc + 1) * 256 ^ (b :: bs).length := by
          simp [List.length_cons, Nat.pow_succ]; ring

theorem fromBytesBE_lt (bs : List Nat) (hb : ∀ b ∈ bs, b < 256) :
    fromBytesBE bs < 256 ^ bs.length := by
  have h := fromBytesBE_foldl_lt bs 0 hb
  simpa [fromBytesBE] using h

theorem foldl_replicate_zero (k : Nat) :
    (List.replicate k 0).foldl (fun a b => a * 256 + b) 0 = 0 := by
  induction k with
  | zero => rfl
  | succ k ih => simpa [List.replicate_succ] using ih

theorem fromBytesBE_replicate_zero_append (k : Nat) (rest : List Nat) :
    fromBytesBE (List.replicate k 0 ++ rest) = fromBytesBE rest := by
  unfold fromBytesBE
  rw [List.foldl_append, foldl_replicate_zero]

theorem toBytesBE_take16 (v : Nat) (hv : v < 2 ^ 128) :
    (toBytesBE 32 v).take 16 = List.replicate 16 0 := by
  have h128 : (2 : Nat) ^ 128 = 256 ^ 16 := by norm_num
  unfold toBytesBE
  rw [← List.map_take, List.take_range]
  refine List.eq_replicate_iff.mpr ⟨by simp, ?_⟩
  intro b hb
  rcases List.mem_map.mp hb with ⟨i, hi, rfl⟩
  have hi16 : i < 16 := by simpa using List.mem_range.mp hi
  have hle : 256 ^ 16 ≤ 256 ^ (32 - 1 - i) :=
    Nat.pow_le_pow_right (by norm_num) (by omega)
  have hz : v / 256 ^ (32 - 1 - i) = 0 :=
    Nat.div_eq_of_lt (lt_of_lt_of_le (h128 ▸ hv) hle)
  simp [hz]

/-- C1: whenever the `call_value` mutator returns `Mutated`, the stored
transaction value is below `2 ^ 128`, i.e. the first 16 bytes of its
32-byte big-endian serialization are zero.  The shared byte mutator is
only assumed to return a byte vector of the same length 32 with entries
below 256 (it operates on a `Vec<u8>` in place). -/
theorem c1_call_value_zeroes_top_16_bytes {S : Type} (ops : FuzzerOps S)
    (input : EVMInput) (s : S) (input' : EVMInput) (s' : S)
    (hlen : (ops.byte_mutator s (toBytesBE 32 (input.get_txn_value.getD 0))
      input.vm_slots).2.1.length = 32)
    (hbyte : ∀ b ∈ (ops.byte_mutator s (toBytesBE 32 (input.get_txn_value.getD 0))
      input.vm_slots).2.1, b < 256)
    (h : EnvMutator.call_value ops input s = (.Mutated, input', s')) :
    ∃ v, input'.txn_value = some v ∧ v < 2 ^ 128 ∧
      (toBytesBE 32 v).take 16 = List.replicate 16 0 := by
  rcases hbm : ops.byte_mutator s (toBytesBE 32 (input.get_txn_value.getD 0))
      input.vm_slots with ⟨res, vec, s''⟩
  simp only [EnvMutator.call_value, hbm] at h
  rw [hbm] at hlen hbyte
  simp only at hlen hbyte
  cases res with
  | Skipped => simp at h
  | Mutated =>
    simp only at h
    have hval : ∃ v, input'.txn_value = some v ∧
        v = (try_from_be_slice (zeroFirst16 vec)).getD 0 := by
      refine ⟨(try_from_be_slice (zeroFirst16 vec)).getD 0, ?_, rfl⟩
      have h2 := congrArg (fun t => (t.2.1 : EVMInput).txn_value) h
      simpa using h2.symm
    rcases hval with ⟨v, hv, hveq⟩
    have hz : zeroFirst16 vec = List.replicate 16 0 ++ vec.drop 16 := by
      unfold zeroFirst16
      rw [hlen]
      norm_num
    have hdb : ∀ b ∈ vec.drop 16, b < 256 :=
      fun b hbm' => hbyte b (List.mem_of_mem_drop hbm')
    have hdlen : (vec.drop 16).length = 16 := by
      simp [List.length_drop, hlen]
    have hlt : fromBytesBE (zeroFirst16 vec) < 2 ^ 128 := by
      rw [hz, fromBytesBE_replicate_zero_append]
      have := fromBytesBE_lt (vec.drop 16) hdb
      rw [hdlen] at this
      calc fromBytesBE (vec.drop 16) < 256 ^ 16 := this
        _ = 2 ^ 128 := by norm_num
    have hsome : try_from_be_slice (zeroFirst16 vec) =
        some (fromBytesBE (zeroFirst16 vec)) := by
      unfold try_from_be_slice
      rw [if_pos]
      calc fromBytesBE (zeroFirst16 vec) < 2 ^ 128 := hlt
        _ < 2 ^ 256 := by norm_num
    have hvlt : v < 2 ^ 128 := by
      rw [hveq, hsome]
      simpa using hlt
    exact ⟨v, hv, hvlt, toBytesBE_take16 v hvlt⟩

/-- The all-defaults concrete input shared by the witnesses: no payload,
empty staged state, no transaction value, all access-pattern flags off. -/
def wInputBase : EVMInput :=
  { caller := List.replicate 19 0 ++ [1]
  , contract := List.replicate 19 0 ++ [2]
  , data := none
  , sstate := { state := { state := [] } }
  , sstate_idx := 0
  , txn_value := none
  , step := false
  , env :=
    { block :=
      { timestamp := 0
      , number := 0
      , basefee := 0
      , gas_limit := 0
      , coinbase := List.replicate 19 0 ++ [3] }
    , cfg := { chain_id := 1 } }
  , access_pattern :=
    { caller := false
    , balance := []
    , call_value := false
    , gas_price := false
    , basefee := false
    , timestamp := false
    , coinbase := false
    , gas_limit := false
    , number := false
    , chain_id := false
    , prevrandao := false }
  , direct_data := []
  , randomness := []
  , repeat_cnt := 1
  , cu_data := []
  , is_cuda := false
  , branch_distance := 0 }

/-- Concrete fuzzer operations whose byte mutator always mutates into 32
copies of the byte 7. -/
def wOps : FuzzerOps Unit :=
  { byte_mutator := fun s _v _slots => (.Mutated, List.replicate 32 7, s)
  , get_rand_caller := fun s => (List.replicate 20 0, s)
  , rand_next := fun s => (0, s)
  , rand_below := fun s _ => (0, s)
  , abi_mutate := fun s a _ => (.Skipped, a, s) }

theorem c1_witness :
    ∃ v, ((EnvMutator.call_value wOps wInputBase ()).2.1).txn_value = some v ∧
      v < 2 ^ 128 ∧ (toBytesBE 32 v).take 16 = List.replicate 16 0 :=
  c1_call_value_zeroes_top_16_bytes wOps wInputBase ()
    (EnvMutator.call_value wOps wInputBase ()).2.1
    (EnvMutator.call_value wOps wInputBase ()).2.2
    (by decide) (by decide) rfl

/-- C10: when the ABI payload is absent, `to_bytes`, `get_types_vec` and
`HasLen::len` report the empty encoding / length 0 even when
`direct_data` is non-empty, while `get_calldata` returns the raw
`direct_data`; so length and serialization disagree with the calldata
actually sent. -/
theorem c10_direct_data_not_reported (input : EVMInput)
    (h : input.data = none) :
    input.to_bytes = [] ∧ input.get_types_vec = [] ∧ input.len = 0 ∧
    input.get_calldata = input.direct_data ∧
    (input.direct_data ≠ [] →
      input.to_bytes ≠ input.get_calldata ∧
      input.len ≠ input.get_calldata.length) := by
  refine ⟨by simp [EVMInput.to_bytes, h], by simp [EVMInput.get_types_vec, h],
    by simp [EVMInput.len, h], by simp [EVMInput.get_calldata, h], ?_⟩
  intro hd
  constructor
  · simp only [EVMInput.to_bytes, EVMInput.get_calldata, h]
    exact fun he => hd he.symm
  · simp only [EVMInput.len, EVMInput.get_calldata, h]
    exact fun he => hd (List.length_eq_zero.mp he.symm)

/-- Concrete input with raw direct bytes and no ABI payload. -/
def c10Input : EVMInput := { wInputBase with direct_data := [1, 2, 3] }

theorem c10_witness :
    c10Input.to_bytes = [] ∧ c10Input.get_types_vec = [] ∧
    c10Input.len = 0 ∧ c10Input.get_calldata = c10Input.direct_data ∧
    (c10Input.direct_data ≠ [] →
      c10Input.to_bytes ≠ c10Input.get_calldata ∧
      c10Input.len ≠ c10Input.get_calldata.length) :=
  c10_direct_data_not_reported c10Input rfl

theorem mem_optMutator {k k' : EnvMutatorKind} {b : Bool} :
    k ∈ optMutator b k' ↔ b = true ∧ k = k' := by
  cases b <;> simp [optMutator]

/-- The guard under which `mutate_env_with_access_pattern` actually
pushes each environment mutator: the field's access-pattern flag, except
that `balance` requires a non-empty balance list and `call_value` is
also enabled whenever the input carries a transaction value. -/
def envMutatorGuard (input : EVMInput) (k : EnvMutatorKind) : Bool :=
  match k with
  | .caller => input.access_pattern.caller
  | .balance => decide (input.access_pattern.balance.length > 0)
  | .call_value => input.access_pattern.call_value || input.get_txn_value.isSome
  | .gas_price => input.access_pattern.gas_price
  | .basefee => input.access_pattern.basefee
  | .timestamp => input.access_pattern.timestamp
  | .coinbase => input.access_pattern.coinbase
  | .gas_limit => input.access_pattern.gas_limit
  | .number => input.access_pattern.number
  | .chain_id => input.access_pattern.chain_id
  | .prevrandao => input.access_pattern.prevrandao

/-- C2 (amended): an environment mutator is in the dispatch vector of
`mutate_env_with_access_pattern` exactly when its guard holds; the guard
is the recorded access-pattern flag for every field except `call_value`,
which is also enabled whenever `txn_value` is `Some`, and `balance`,
which requires the recorded balance-read list to be non-empty. -/
theorem c2_amended_enabled_iff_guard (input : EVMInput) (k : EnvMutatorKind) :
    k ∈ input.enabled_env_mutators ↔ envMutatorGuard input k = true := by
  cases k <;>
    simp [EVMInput.enabled_env_mutators, envMutatorGuard, mem_optMutator,
      List.mem_append]

/-- Concrete input whose access pattern is all-false but which carries a
transaction value. -/
def c2Input : EVMInput := { wInputBase with txn_value := some 1 }

/-- C2 counterexample: with every access-pattern flag false but
`txn_value = Some 1`, the `call_value` mutator is selected and run by
`mutate_env_with_access_pattern` (it changes the stored value), although
`access_pattern.call_value` is false. -/
theorem c2_counterexample :
    EnvMutatorKind.call_value ∈ c2Input.enabled_env_mutators ∧
    c2Input.access_pattern.call_value = false ∧
    (mutate_env_with_access_pattern wOps c2Input ()).1 = .Mutated ∧
    (mutate_env_with_access_pattern wOps c2Input ()).2.1.txn_value ≠
      c2Input.txn_value := by
  decide

/-- C3 (amended): for non-CUDA inputs `mutate` dispatches to the
environment mutator when the payload is absent or the random draw modulo
100 exceeds 87 (≈13% of draws), and otherwise runs the payload's
type-directed mutator; CUDA inputs never take the environment branch,
and with no payload they return `Skipped` with the record unchanged. -/
theorem c3_amended_mutate_dispatch {S : Type} (ops : FuzzerOps S)
    (input : EVMInput) (s : S) :
    (input.is_cuda = false → input.data = none →
      mutate ops input s =
        mutate_env_with_access_pattern ops input (ops.rand_next s).2) ∧
    (input.is_cuda = false → (ops.rand_next s).1 % 100 > 87 →
      mutate ops input s =
        mutate_env_with_access_pattern ops input (ops.rand_next s).2) ∧
    (input.is_cuda = false → ¬((ops.rand_next s).1 % 100 > 87) →
      ∀ d, input.data = some d →
      mutate ops input s =
        ((ops.abi_mutate (ops.rand_next s).2 d input.vm_slots).1,
         { input with
            data := some (ops.abi_mutate (ops.rand_next s).2 d input.vm_slots).2.1 },
         (ops.abi_mutate (ops.rand_next s).2 d input.vm_slots).2.2)) ∧
    (input.is_cuda = true → input.data = none →
      mutate ops input s = (.Skipped, input, s)) := by
  rcases hrn : ops.rand_next s with ⟨r, s1⟩
  refine ⟨?_, ?_, ?_, ?_⟩
  · intro hic hd
    simp [mutate, hic, hrn, hd]
  · intro hic hr
    simp [mutate, hic, hrn, hr]
  · intro hic hr d hd
    rcases ham : ops.abi_mutate s1 d input.vm_slots with ⟨a, d', s2⟩
    simp [mutate, mutate.mutatePayload, hic, hrn, hr, hd, ham]
  · intro hic hd
    simp [mutate, mutate.mutatePayload, hic, hd]

/-- Concrete CUDA-marked input with no payload but a readable timestamp
field. -/
def c3Input : EVMInput :=
  { wInputBase with
      is_cuda := true
    , access_pattern := { wInputBase.access_pattern with timestamp := true } }

/-- C3 counterexample: with `is_cuda = true` and `data = None`, `mutate`
returns `Skipped` and leaves the record unchanged — it does not perform
an environment mutation, although `mutate_env_with_access_pattern` on
the same input and state would return `Mutated`. -/
theorem c3_counterexample :
    c3Input.data = none ∧
    (mutate wOps c3Input ()).1 = .Skipped ∧
    (mutate wOps c3Input ()).2.1 = c3Input ∧
    (mutate_env_with_access_pattern wOps c3Input ()).1 = .Mutated := by
  decide

theorem c3_witness :
    mutate wOps wInputBase () =
      mutate_env_with_access_pattern wOps wInputBase ((wOps.rand_next ()).2) :=
  (c3_amended_mutate_dispatch wOps wInputBase ()).1 rfl rfl

/-- C4 (amended): each address-field environment mutator draws a random
corpus caller and compares it against the input's *caller* field —
`caller` thereby against the field it mutates, `coinbase` against the
caller rather than the current coinbase; on equality it returns
`Skipped` with the record unchanged, otherwise it writes the drawn
address into its field and returns `Mutated`. -/
theorem c4_amended_h160_mutators_compare_caller {S : Type}
    (ops : FuzzerOps S) (input : EVMInput) (s : S) :
    ((EnvMutator.caller ops input s).1 = .Skipped ↔
      (ops.get_rand_caller s).1 = input.caller) ∧
    ((EnvMutator.coinbase ops input s).1 = .Skipped ↔
      (ops.get_rand_caller s).1 = input.caller) ∧
    ((EnvMutator.caller ops input s).1 = .Skipped →
      (EnvMutator.caller ops input s).2.1 = input) ∧
    ((EnvMutator.coinbase ops input s).1 = .Skipped →
      (EnvMutator.coinbase ops input s).2.1 = input) ∧
    ((ops.get_rand_caller s).1 ≠ input.caller →
      (EnvMutator.caller ops input s).1 = .Mutated ∧
      (EnvMutator.caller ops input s).2.1 =
        { input with caller := (ops.get_rand_caller s).1 } ∧
      (EnvMutator.coinbase ops input s).1 = .Mutated ∧
      (EnvMutator.coinbase ops input s).2.1 =
        { input with env.block.coinbase := (ops.get_rand_caller s).1 }) := by
  rcases hrc : ops.get_rand_caller s with ⟨addr, s'⟩
  by_cases haddr : addr = input.caller <;>
    simp [EnvMutator.caller, EnvMutator.coinbase, EVMInput.get_caller,
      hrc, haddr]

/-- Concrete fuzzer operations drawing the corpus caller
`0x00…03` — equal to `wInputBase`'s coinbase, distinct from its caller. -/
def c4Ops : FuzzerOps Unit :=
  { byte_mutator := fun s v _slots => (.Skipped, v, s)
  , get_rand_caller := fun s => (List.replicate 19 0 ++ [3], s)
  , rand_next := fun s => (0, s)
  , rand_below := fun s _ => (0, s)
  , abi_mutate := fun s a _ => (.Skipped, a, s) }

/-- C4 counterexample: the drawn address equals the current value of the
field being mutated (the coinbase), yet the `coinbase` mutator returns
`Mutated`, not `Skipped` — it compares against the caller instead. -/
theorem c4_counterexample :
    (c4Ops.get_rand_caller ()).1 = wInputBase.env.block.coinbase ∧
    (EnvMutator.coinbase c4Ops wInputBase ()).1 = .Mutated := by
  decide

theorem c4_witness :
    (EnvMutator.coinbase c4Ops wInputBase ()).1 = .Mutated ∧
    (EnvMutator.coinbase c4Ops wInputBase ()).2.1 =
      { wInputBase with
          env.block.coinbase := (c4Ops.get_rand_caller ()).1 } :=
  ⟨((c4_amended_h160_mutators_compare_caller c4Ops wInputBase ()).2.2.2.2
      (by decide)).2.2.1,
   ((c4_amended_h160_mutators_compare_caller c4Ops wInputBase ()).2.2.2.2
      (by decide)).2.2.2⟩

/-- The mutator return contract: the outcome is `Mutated` or `Skipped`,
and on `Skipped` the input record is unchanged (hence so is every field
and any serialization of it). -/
def SkipFrame {S : Type} (input : EVMInput)
    (out : MutationResult × EVMInput × S) : Prop :=
  (out.1 = .Mutated ∨ out.1 = .Skipped) ∧
  (out.1 = .Skipped → out.2.1 = input)

theorem skipFrame_mutateU256Field {S : Type} (get : EVMInput → Nat)
    (set : EVMInput → Nat → EVMInput) (ops : FuzzerOps S)
    (input : EVMInput) (s : S) :
    SkipFrame input (EnvMutator.mutateU256Field get set ops input s) := by
  rcases hbm : ops.byte_mutator s (toBytesBE 32 (get input)) input.vm_slots
    with ⟨res, vec, s'⟩
  cases res <;>
    simp [SkipFrame, EnvMutator.mutateU256Field, hbm]

theorem skipFrame_caller {S : Type} (ops : FuzzerOps S)
    (input : EVMInput) (s : S) :
    SkipFrame input (EnvMutator.caller ops input s) := by
  rcases hrc : ops.get_rand_caller s with ⟨addr, s'⟩
  by_cases haddr : addr = input.get_caller <;>
    simp [SkipFrame, EnvMutator.caller, hrc, haddr]

theorem skipFrame_coinbase {S : Type} (ops : FuzzerOps S)
    (input : EVMInput) (s : S) :
    SkipFrame input (EnvMutator.coinbase ops input s) := by
  rcases hrc : ops.get_rand_caller s with ⟨addr, s'⟩
  by_cases haddr : addr = input.get_caller <;>
    simp [SkipFrame, EnvMutator.coinbase, hrc, haddr]

theorem skipFrame_call_value {S : Type} (ops : FuzzerOps S)
    (input : EVMInput) (s : S) :
    SkipFrame input (EnvMutator.call_value ops input s) := by
  rcases hbm : ops.byte_mutator s (toBytesBE 32 (input.get_txn_value.getD 0))
    input.vm_slots with ⟨res, vec, s'⟩
  cases res <;>
    simp [SkipFrame, EnvMutator.call_value, hbm]

theorem skipFrame_runEnvMutator {S : Type} (k : EnvMutatorKind)
    (ops : FuzzerOps S) (input : EVMInput) (s : S) :
    SkipFrame input (runEnvMutator k ops input s) := by
  cases k with
  | caller => exact skipFrame_caller ops input s
  | balance => exact ⟨Or.inr rfl, fun _ => rfl⟩
  | call_value => exact skipFrame_call_value ops input s
  | gas_price => exact ⟨Or.inr rfl, fun _ => rfl⟩
  | basefee => exact skipFrame_mutateU256Field _ _ ops input s
  | timestamp => exact skipFrame_mutateU256Field _ _ ops input s
  | coinbase => exact skipFrame_coinbase ops input s
  | gas_limit => exact skipFrame_mutateU256Field _ _ ops input s
  | number => exact skipFrame_mutateU256Field _ _ ops input s
  | chain_id => exact skipFrame_mutateU256Field _ _ ops input s
  | prevrandao => exact ⟨Or.inr rfl, fun _ => rfl⟩

theorem skipFrame_mutate_env {S : Type} (ops : FuzzerOps S)
    (input : EVMInput) (s : S) :
    SkipFrame input (mutate_env_with_access_pattern ops input s) := by
  unfold mutate_env_with_access_pattern
  by_cases hlen : input.enabled_env_mutators.length = 0
  · simp [hlen, SkipFrame]
  · rcases hrb : ops.rand_below s input.enabled_env_mutators.length
      with ⟨r, s'⟩
    simp only [hlen, if_false, hrb]
    exact skipFrame_runEnvMutator _ ops input s'

theorem skipFrame_mutate {S : Type} (ops : FuzzerOps S)
    (input : EVMInput) (s : S)
    (habi : ∀ (s0 : S) (a : BoxedABI) (slots : Option Storage),
      (ops.abi_mutate s0 a slots).1 = .Skipped →
      (ops.abi_mutate s0 a slots).2.1 = a) :
    SkipFrame input (mutate ops input s) := by
  have hpayload : ∀ s0 : S, SkipFrame input (mutate.mutatePayload ops input s0) := by
    intro s0
    rcases hd : input.data with _ | d
    · simp [SkipFrame, mutate.mutatePayload, hd]
    · rcases ham : ops.abi_mutate s0 d input.vm_slots with ⟨a, d', s2⟩
      have hskip : a = .Skipped → d' = d := by
        intro ha
        have h1 := habi s0 d input.vm_slots
        rw [ham] at h1
        simpa using h1 (by simp [ha])
      cases a with
      | Mutated => simp [SkipFrame, mutate.mutatePayload, hd, ham]
      | Skipped =>
        have hd' : d' = d := hskip rfl
        subst hd'
        have hrec : { input with data := some d' } = input := by
          rw [← hd]
        simp [SkipFrame, mutate.mutatePayload, hd, ham, hrec]
  unfold mutate
  by_cases hic : input.is_cuda
  · simp only [hic, Bool.not_true, Bool.false_eq_true, if_false]
    exact hpayload s
  · rcases hrn : ops.rand_next s with ⟨r, s1⟩
    simp only [Bool.not_eq_true', eq_false_of_ne_true hic, Bool.not_false,
      if_true, hrn]
    by_cases hcond : (r % 100 > 87 || input.data.isNone) = true
    · simp only [hcond, if_true]
      exact skipFrame_mutate_env ops input s1
    · simp only [Bool.not_eq_true] at hcond
      simp only [hcond, if_false]
      exact hpayload s1

/-- C5: every mutator of the family — each environment mutator,
`mutate_env_with_access_pattern`, and `mutate` itself — returns
`Mutated` or `Skipped`, and on `Skipped` leaves the input record (and
hence its serialization) unchanged.  The external ABI payload mutator is
assumed to obey the same contract on the payload it is handed. -/
theorem c5_mutators_return_contract {S : Type} (ops : FuzzerOps S)
    (input : EVMInput) (s : S)
    (habi : ∀ (s0 : S) (a : BoxedABI) (slots : Option Storage),
      (ops.abi_mutate s0 a slots).1 = .Skipped →
      (ops.abi_mutate s0 a slots).2.1 = a) :
    SkipFrame input (EnvMutator.basefee ops input s) ∧
    SkipFrame input (EnvMutator.timestamp ops input s) ∧
    SkipFrame input (EnvMutator.coinbase ops input s) ∧
    SkipFrame input (EnvMutator.gas_limit ops input s) ∧
    SkipFrame input (EnvMutator.number ops input s) ∧
    SkipFrame input (EnvMutator.chain_id ops input s) ∧
    SkipFrame input (EnvMutator.prevrandao ops input s) ∧
    SkipFrame input (EnvMutator.gas_price ops input s) ∧
    SkipFrame input (EnvMutator.balance ops input s) ∧
    SkipFrame input (EnvMutator.caller ops input s) ∧
    SkipFrame input (EnvMutator.call_value ops input s) ∧
    SkipFrame input (mutate_env_with_access_pattern ops input s) ∧
    SkipFrame input (mutate ops input s) :=
  ⟨skipFrame_mutateU256Field _ _ ops input s,
   skipFrame_mutateU256Field _ _ ops input s,
   skipFrame_coinbase ops input s,
   skipFrame_mutateU256Field _ _ ops input s,
   skipFrame_mutateU256Field _ _ ops input s,
   skipFrame_mutateU256Field _ _ ops input s,
   ⟨Or.inr rfl, fun _ => rfl⟩,
   ⟨Or.inr rfl, fun _ => rfl⟩,
   ⟨Or.inr rfl, fun _ => rfl⟩,
   skipFrame_caller ops input s,
   skipFrame_call_value ops input s,
   skipFrame_mutate_env ops input s,
   skipFrame_mutate ops input s habi⟩

theorem c5_witness :
    SkipFrame wInputBase (mutate wOps wInputBase ()) :=
  (c5_mutators_return_contract wOps wInputBase ()
    (fun _ _ _ _ => rfl)).2.2.2.2.2.2.2.2.2.2.2.2

theorem toBytesLE_getD (w n i : Nat) (h : i < w) :
    (toBytesLE w n).getD i 0 = n / 256 ^ i % 256 := by
  unfold toBytesLE
  rw [List.getD_eq_getElem?_getD]
  rw [List.getElem?_map]
  rw [List.getElem?_range h]
  rfl

theorem reverse_getD (l : List Nat) (i : Nat) (h : i < l.length) :
    l.reverse.getD i 0 = l.getD (l.length - 1 - i) 0 := by
  have h1 : i < l.reverse.length := by simpa using h
  have h2 : l.length - 1 - i < l.length := by omega
  rw [List.getD_eq_getElem?_getD, List.getD_eq_getElem?_getD]
  rw [List.getElem?_eq_getElem h1, List.getElem?_eq_getElem h2]
  simp [List.getElem_reverse]

theorem foldl_append_eq_bind {α β : Type} (f : α → List β) (l : List α)
    (acc : List β) :
    l.foldl (fun a x => a ++ f x) acc = acc ++ l.flatMap f := by
  induction l generalizing acc with
  | nil => simp
  | cons x l ih => simp [ih, List.append_assoc]

/-- C6 (amended): all multi-byte integers crossing the foreign-executor
boundary (timestamp, block number, call value, storage keys and values)
are serialized as 32 little-endian bytes (byte `i` is
`n / 256 ^ i % 256`), and the 20-byte addresses are byte-reversed in
`cu_load_evm_env` and `cu_load_input`; but `set_evm_env` passes the
caller and contract addresses in their natural byte order, unreversed. -/
theorem c6_amended_marshaling_endianness (input : EVMInput)
    (SEED_SIZE tid sid : Nat)
    (hc : input.contract.length = 20) (hca : input.caller.length = 20) :
    (∀ n i, i < 32 → (toBytesLE 32 n).getD i 0 = n / 256 ^ i % 256) ∧
    (cu_load_evm_env input).Timestamp =
      toBytesLE 32 input.env.block.timestamp ∧
    (cu_load_evm_env input).Blocknum = toBytesLE 32 input.env.block.number ∧
    (∀ i, i < 20 → (cu_load_evm_env input).To.getD i 0 =
      input.contract.getD (19 - i) 0) ∧
    (cu_load_input SEED_SIZE input tid).call.value =
      toBytesLE 32 (input.get_txn_value.getD 0) ∧
    (∀ i, i < 20 → (cu_load_input SEED_SIZE input tid).call.caller.getD i 0 =
      input.caller.getD (19 - i) 0) ∧
    (cu_load_storage input sid).src =
      ((input.get_state.get input.get_contract).getD []).flatMap
        (fun kv => toBytesLE 32 kv.1 ++ toBytesLE 32 kv.2) ∧
    (cu_load_storage input sid).slotCnt =
      ((input.get_state.get input.get_contract).getD []).length ∧
    (set_evm_env input).Timestamp = toBytesLE 32 input.env.block.timestamp ∧
    (set_evm_env input).Blocknum = toBytesLE 32 input.env.block.number ∧
    (set_evm_env input).To = input.contract ∧
    (set_evm_env input).From = input.caller := by
  refine ⟨fun n i h => toBytesLE_getD 32 n i h, rfl, rfl, ?_, rfl, ?_, ?_, ?_,
    rfl, rfl, rfl, rfl⟩
  · intro i hi
    have h20 : i < input.contract.length := by omega
    have := reverse_getD input.contract i h20
    rw [hc] at this
    simpa [cu_load_evm_env, EVMInput.get_contract] using this
  · intro i hi
    have h20 : i < input.caller.length := by omega
    have := reverse_getD input.caller i h20
    rw [hca] at this
    simpa [cu_load_input, EVMInput.get_caller] using this
  · rcases hst : input.get_state.get input.get_contract with _ | storage
    · simp [cu_load_storage, hst]
    · simp [cu_load_storage, hst, foldl_append_eq_bind]
  · rcases hst : input.get_state.get input.get_contract with _ | storage
    · simp [cu_load_storage, hst]
    · simp [cu_load_storage, hst]

/-- C6 counterexample: `set_evm_env` does not byte-reverse the contract
address (concretely: for the contract `0x00…02` the `To` argument is the
address itself, not its reversal). -/
theorem c6_counterexample :
    (set_evm_env wInputBase).To ≠ wInputBase.contract.reverse ∧
    (set_evm_env wInputBase).To = wInputBase.contract := by
  decide

theorem c6_witness :
    (cu_load_input 0 wInputBase 0).call.caller.getD 0 0 =
      wInputBase.caller.getD 19 0 ∧
    (set_evm_env wInputBase).To = wInputBase.contract :=
  ⟨(c6_amended_marshaling_endianness wInputBase 0 0 0 (by decide)
      (by decide)).2.2.2.2.2.1 0 (by norm_num),
   (c6_amended_marshaling_endianness wInputBase 0 0 0 (by decide)
      (by decide)).2.2.2.2.2.2.2.2.2.2.1⟩

/-- C7: when the calldata length plus the 68-byte header exceeds
`SEED_SIZE` (a compile-time constant from `config.rs`, modelled as a
parameter), `cu_load_input` logs the configuration error and still
invokes `cuLoadSeed` with the full calldata and its true length — the
oversize condition never prevents the invocation. -/
theorem c7_oversize_calldata_still_loaded (SEED_SIZE : Nat)
    (input : EVMInput) (tid : Nat)
    (h : 68 + input.get_calldata.length > SEED_SIZE) :
    (cu_load_input SEED_SIZE input tid).logged_seed_size_error = true ∧
    (cu_load_input SEED_SIZE input tid).call.data = input.get_calldata ∧
    (cu_load_input SEED_SIZE input tid).call.data_size =
      input.get_calldata.length := by
  refine ⟨?_, rfl, rfl⟩
  simp [cu_load_input, h]

theorem c7_witness :
    68 + c10Input.get_calldata.length > 0 ∧
    (cu_load_input 0 c10Input 0).logged_seed_size_error = true ∧
    (cu_load_input 0 c10Input 0).call.data = c10Input.get_calldata ∧
    (cu_load_input 0 c10Input 0).call.data_size =
      c10Input.get_calldata.length :=
  ⟨by decide, c7_oversize_calldata_still_loaded 0 c10Input 0 (by decide)⟩

/-- C8: the per-selector loop records a false-positive error for exactly
the selectors whose resolved entry point is 0 and produces function
records for exactly the others, in discovery order — a zero entry point
skips the selector and the loop continues over the rest rather than
aborting. -/
theorem c8_false_positive_selectors_skipped {M : Type}
    (ops : DecompilerOps M) (selectors : List String) :
    decompile_selectors ops selectors =
      ((selectors.filter (fun sel => !(ops.resolve_entry_point sel == 0))).map
        (fun sel => ops.analyze
          (ops.map_selector sel (ops.resolve_entry_point sel)).1
          (initFunction sel (ops.resolve_entry_point sel))),
       (selectors.filter (fun sel => ops.resolve_entry_point sel == 0)).map
        (fun sel => TraceEvent.falsePositive sel)) := by
  induction selectors with
  | nil => rfl
  | cons sel rest ih =>
    by_cases hep : ops.resolve_entry_point sel = 0
    · simp [decompile_selectors, hep, ih, List.filter_cons]
    · rcases hms : ops.map_selector sel (ops.resolve_entry_point sel)
        with ⟨m, jd⟩
      simp [decompile_selectors, hep, ih, List.filter_cons, hms]

theorem rmatchN_char_iff (p : Char → Bool) (n : Nat) (s : List Char) :
    RMatchN (.char p) n s ↔ s.length = n ∧ s.all p = true := by
  constructor
  · intro h
    induction n generalizing s with
    | zero =>
      cases h
      simp
    | succ n ih =>
      cases h with
      | cons h1 h2 =>
        cases h1 with
        | char hc =>
          rcases ih _ h2 with ⟨hlen, hall⟩
          simp_all
  · rintro ⟨hlen, hall⟩
    subst hlen
    induction s with
    | nil => exact RMatchN.nil _
    | cons c s ih =>
      simp only [List.all_cons, Bool.and_eq_true] at hall
      exact RMatchN.cons (RMatch.char hall.1) (ih hall.2)

theorem rmatch_hex_target_iff (lo hi : Nat) (s : List Char) :
    RMatch (.seq optHexPrefix (.rep (.char isHexDigit) lo hi)) s ↔
      matchesHexTarget lo hi s := by
  constructor
  · intro h
    cases h with
    | seqm h1 h2 =>
      rename_i s1 s2
      have htail : s2.all isHexDigit = true ∧ lo ≤ s2.length ∧
          s2.length ≤ hi := by
        cases h2 with
        | repm hlo hhi hn =>
          rcases (rmatchN_char_iff _ _ _).mp hn with ⟨hlen, hall⟩
          exact ⟨hall, by omega, by omega⟩
      cases h1 with
      | optNone =>
        exact Or.inl (by simpa using htail)
      | optSome hpre =>
        cases hpre with
        | seqm hc1 hc2 =>
          rename_i t1 t2
          cases hc1 with
          | char hz =>
            cases hc2 with
            | char hx =>
              rename_i c1 c2
              have hc1' : c1 = '0' := by simpa using hz
              have hc2' : c2 = 'x' := by simpa using hx
              subst hc1' hc2'
              exact Or.inr ⟨s2, by simp, htail.1, htail.2.1, htail.2.2⟩
  · intro h
    rcases h with ⟨hall, hlo, hhi⟩ | ⟨t, hs, hall, hlo, hhi⟩
    · have hrep : RMatch (.rep (.char isHexDigit) lo hi) s :=
        RMatch.repm hlo hhi ((rmatchN_char_iff _ _ _).mpr ⟨rfl, hall⟩)
      have hopt : RMatch optHexPrefix [] := RMatch.optNone
      simpa using RMatch.seqm hopt hrep
    · subst hs
      have hrep : RMatch (.rep (.char isHexDigit) lo hi) t :=
        RMatch.repm hlo hhi ((rmatchN_char_iff _ _ _).mpr ⟨rfl, hall⟩)
      have hopt : RMatch optHexPrefix ['0', 'x'] := by
        refine RMatch.optSome ?_
        have h0 : RMatch (.char (fun c => c = '0')) ['0'] :=
          RMatch.char (by simp)
        have hx : RMatch (.char (fun c => c = 'x')) ['x'] :=
          RMatch.char (by simp)
        simpa using RMatch.seqm h0 hx
      simpa using RMatch.seqm hopt hrep

/-- C9: a target string matches `BYTECODE_REGEX` exactly when it is an
optional `0x` prefix followed by at most 50000 hexadecimal characters
(at most 25000 bytes of bytecode), `ADDRESS_REGEX` exactly when the
prefix is followed by exactly 40 hexadecimal characters, and
`TRANSACTION_HASH_REGEX` exactly when it is followed by exactly 64. -/
theorem c9_target_validation_regexes (s : List Char) :
    (RMatch BYTECODE_REGEX s ↔ matchesHexTarget 0 50000 s) ∧
    (RMatch ADDRESS_REGEX s ↔ matchesHexTarget 40 40 s) ∧
    (RMatch TRANSACTION_HASH_REGEX s ↔ matchesHexTarget 64 64 s) :=
  ⟨rmatch_hex_target_iff 0 50000 s, rmatch_hex_target_iff 40 40 s,
   rmatch_hex_target_iff 64 64 s⟩
